import Mathlib

/-
Verification of the googlemapsat88mph satellite-imagery crawler
(source file googlemapsat88mph.py) against its natural-language
specification. The definitions below are shallow embeddings of the
corresponding Python functions; real-valued float arithmetic is modelled
over the real numbers, integer tile coordinates over Int, and exceptions
as Option or explicit outcome types.
-/

/-- Tile side length in pixels; source constant TILE_SIZE = 256. -/
noncomputable def TILE_SIZE : ℝ := 256

/-- Earth circumference in meters at the equator;
source constant EARTH_CIRCUMFERENCE = 40075.016686 * 1000. -/
noncomputable def EARTH_CIRCUMFERENCE : ℝ := 40075.016686 * 1000

/-- A latitude-longitude pair; source class GeoPoint. The source constructor
asserts -90 <= lat <= 90 and -180 <= lon <= 180; here the fields are plain
reals and theorems hold for all of them, which subsumes the asserted range. -/
structure GeoPoint where
  lat : ℝ
  lon : ℝ

/-- Degree-to-radian conversion; source call math.radians(x). -/
noncomputable def radians (x : ℝ) : ℝ := x * Real.pi / 180

/-- The selected view direction; source class ViewDirection, built from one
of the five direction strings. -/
inductive ViewDirection where
  | downward
  | northward
  | eastward
  | southward
  | westward
deriving DecidableEq, Repr

/-- View angle in degrees; source field ViewDirection.angle
(-1 for downward, 0/90/180/270 for the oblique directions). -/
def ViewDirection.angle : ViewDirection → ℤ
  | .downward => -1
  | .northward => 0
  | .eastward => 90
  | .southward => 180
  | .westward => 270

/-- Source method ViewDirection.is_downward: angle == -1. -/
def ViewDirection.is_downward (d : ViewDirection) : Bool := d.angle == -1

/-- Source method ViewDirection.is_oblique: not is_downward. -/
def ViewDirection.is_oblique (d : ViewDirection) : Bool := !d.is_downward

/-- Source method ViewDirection.is_northward: angle == 0. -/
def ViewDirection.is_northward (d : ViewDirection) : Bool := d.angle == 0

/-- Source method ViewDirection.is_eastward: angle == 90. -/
def ViewDirection.is_eastward (d : ViewDirection) : Bool := d.angle == 90

/-- Source method ViewDirection.is_southward: angle == 180. -/
def ViewDirection.is_southward (d : ViewDirection) : Bool := d.angle == 180

/-- Source method ViewDirection.is_westward: angle == 270. -/
def ViewDirection.is_westward (d : ViewDirection) : Bool := d.angle == 270

/-- The standard Web Mercator projection returning float tile coordinates;
source staticmethod WebMercator.project(geopoint, zoom). -/
noncomputable def WebMercator.project (p : GeoPoint) (zoom : ℕ) : ℝ × ℝ :=
  let factor := (1 / (2 * Real.pi)) * 2 ^ zoom
  (factor * (radians p.lon + Real.pi),
   factor * (Real.pi - Real.log (Real.tan (Real.pi / 4 + radians p.lat / 2))))

/-- The oblique Web Mercator projection; source staticmethod
ObliqueWebMercator.project(geopoint, zoom, direction). The source raises
ValueError when the direction is none of the four oblique ones (that is,
for downward), modelled here as none; callers in the source only invoke it
for oblique directions. -/
noncomputable def ObliqueWebMercator.project (p : GeoPoint) (zoom : ℕ)
    (direction : ViewDirection) : Option (ℝ × ℝ) :=
  let p0 := WebMercator.project p zoom
  let width_and_height_of_world_in_tiles : ℝ := 2 ^ zoom
  let equator_offset_from_edges := width_and_height_of_world_in_tiles / 2
  let xy : Option (ℝ × ℝ) :=
    if direction.is_northward then some (p0.1, p0.2)
    else if direction.is_eastward then
      some (p0.2, width_and_height_of_world_in_tiles - p0.1)
    else if direction.is_southward then
      some (width_and_height_of_world_in_tiles - p0.1,
            width_and_height_of_world_in_tiles - p0.2)
    else if direction.is_westward then
      some (width_and_height_of_world_in_tiles - p0.2, p0.1)
    else none
  xy.map (fun q =>
    (q.1, (q.2 - equator_offset_from_edges) / Real.sqrt 2 + equator_offset_from_edges))

/-- Spec-side helper naming the foreshortening step described in the spec:
translate the equator line y = 2^zoom / 2 to zero, compress by sqrt 2,
translate back. -/
noncomputable def foreshorten (zoom : ℕ) (y : ℝ) : ℝ :=
  (y - (2 : ℝ) ^ zoom / 2) / Real.sqrt 2 + (2 : ℝ) ^ zoom / 2

/-- The descending loop of GeoPoint.compute_zoom_level: for
zoom in reversed(range(0, 23+1)), if mpp0 / 2 ** zoom exceeds the maximum
return zoom + 1; if the loop completes, the for-else branch raises
RuntimeError, modelled as none. The argument n is the zoom level the loop
is currently at (the source starts at 23 and counts down to 0). -/
noncomputable def zoomLoop (mpp0 maxmpp : ℝ) : ℕ → Option ℕ
  | 0 => if mpp0 / 2 ^ (0 : ℕ) > maxmpp then some (0 + 1) else none
  | n + 1 => if mpp0 / 2 ^ (n + 1) > maxmpp then some (n + 1 + 1)
             else zoomLoop mpp0 maxmpp n

/-- Source method GeoPoint.compute_zoom_level(max_meters_per_pixel):
ground resolution at zoom 0 is (EARTH_CIRCUMFERENCE / TILE_SIZE) * cos(lat),
then the descending loop over zoom levels 23..0. -/
noncomputable def GeoPoint.compute_zoom_level (p : GeoPoint) (maxmpp : ℝ) : Option ℕ :=
  zoomLoop ((EARTH_CIRCUMFERENCE / TILE_SIZE) * Real.cos (radians p.lat)) maxmpp 23

/-- Ground resolution at a latitude and zoom level, as computed inside the
source loop: meters_per_pixel_at_zoom_0 / 2 ** zoom. -/
noncomputable def meters_per_pixel (lat : ℝ) (zoom : ℕ) : ℝ :=
  (EARTH_CIRCUMFERENCE / TILE_SIZE) * Real.cos (radians lat) / 2 ^ zoom

theorem zoomLoop_eq_none (mpp0 maxmpp : ℝ) (h0 : 0 ≤ mpp0) (h : mpp0 ≤ maxmpp) :
    ∀ n, zoomLoop mpp0 maxmpp n = none := by
  intro n
  induction n with
  | zero =>
      rw [zoomLoop, if_neg]
      push_neg
      calc mpp0 / 2 ^ (0 : ℕ) ≤ mpp0 := by
            apply div_le_self h0
            norm_num
        _ ≤ maxmpp := h
  | succ n ih =>
      rw [zoomLoop, if_neg]
      · exact ih
      · push_neg
        calc mpp0 / 2 ^ (n + 1) ≤ mpp0 := by
              apply div_le_self h0
              exact one_le_pow₀ (by norm_num)
          _ ≤ maxmpp := h

theorem zoomLoop_succ_pos (mpp0 maxmpp : ℝ) (n : ℕ)
    (h : mpp0 / 2 ^ (n + 1) > maxmpp) :
    zoomLoop mpp0 maxmpp (n + 1) = some (n + 2) := by
  simp only [zoomLoop]
  rw [if_pos h]

/-- Claim C1 (code_bug): the claim says compute_zoom_level returns the lowest
zoom in 0..23 whose resolution is at most the constraint and raises exactly
when the constraint is below the zoom-23 resolution. The code does the
opposite at both edges: at latitude 0 with a loose constraint of 200000
meters per pixel (which zoom 0 already satisfies, second conjunct) it raises
the too-high-zoom RuntimeError (first conjunct), and with a tight constraint
of 0.01 meters per pixel, which is below the zoom-23 resolution (fourth
conjunct), it returns the out-of-range zoom 24 instead of raising (third
conjunct). -/
theorem compute_zoom_level_contradicts_intent :
    GeoPoint.compute_zoom_level ⟨0, 0⟩ 200000 = none
    ∧ meters_per_pixel 0 0 ≤ 200000
    ∧ GeoPoint.compute_zoom_level ⟨0, 0⟩ (1 / 100) = some 24
    ∧ (1 / 100 : ℝ) < meters_per_pixel 0 23 := by
  have hrad : radians 0 = 0 := by simp [radians]
  have hmpp : (EARTH_CIRCUMFERENCE / TILE_SIZE) * Real.cos (radians (0 : ℝ))
      = 40075.016686 * 1000 / 256 := by
    rw [hrad, Real.cos_zero, mul_one, EARTH_CIRCUMFERENCE, TILE_SIZE]
  refine ⟨?_, ?_, ?_, ?_⟩
  · unfold GeoPoint.compute_zoom_level
    apply zoomLoop_eq_none
    · rw [hmpp]; norm_num
    · rw [hmpp]; norm_num
  · unfold meters_per_pixel
    rw [hmpp]
    norm_num
  · unfold GeoPoint.compute_zoom_level
    exact zoomLoop_succ_pos _ _ 22 (by rw [hmpp]; norm_num)
  · unfold meters_per_pixel
    rw [hmpp]
    norm_num

/-- Claim C4 (confirmed): for every GeoPoint and zoom, with (x0, y0) the
standard Web Mercator projection and W = 2^zoom, the oblique projection
returns for northward (x0, y0), eastward (y0, W - x0), southward
(W - x0, W - y0), westward (W - y0, x0), in each case with the final y
foreshortened about the equator line y = W/2 by a factor of sqrt 2. -/
theorem oblique_projection_formulas (p : GeoPoint) (zoom : ℕ) :
    ObliqueWebMercator.project p zoom ViewDirection.northward
      = some ((WebMercator.project p zoom).1,
              foreshorten zoom (WebMercator.project p zoom).2)
    ∧ ObliqueWebMercator.project p zoom ViewDirection.eastward
      = some ((WebMercator.project p zoom).2,
              foreshorten zoom ((2 : ℝ) ^ zoom - (WebMercator.project p zoom).1))
    ∧ ObliqueWebMercator.project p zoom ViewDirection.southward
      = some ((2 : ℝ) ^ zoom - (WebMercator.project p zoom).1,
              foreshorten zoom ((2 : ℝ) ^ zoom - (WebMercator.project p zoom).2))
    ∧ ObliqueWebMercator.project p zoom ViewDirection.westward
      = some ((2 : ℝ) ^ zoom - (WebMercator.project p zoom).2,
              foreshorten zoom (WebMercator.project p zoom).1) :=
  ⟨rfl, rfl, rfl, rfl⟩

/-- Claim C3, counterexample: at the point (lat 30, lon 0) and zoom 0 the
northward projection does not coincide with the standard Web Mercator
projection, because the foreshortening step moves every y coordinate that
is not on the equator line. -/
theorem northward_not_standard_projection :
    ObliqueWebMercator.project ⟨30, 0⟩ 0 ViewDirection.northward
      ≠ some (WebMercator.project ⟨30, 0⟩ 0) := by
  intro h
  have hob : ObliqueWebMercator.project (⟨30, 0⟩ : GeoPoint) 0 ViewDirection.northward
      = some ((WebMercator.project ⟨30, 0⟩ 0).1,
              foreshorten 0 (WebMercator.project ⟨30, 0⟩ 0).2) := rfl
  have hy : foreshorten 0 (WebMercator.project (⟨30, 0⟩ : GeoPoint) 0).2
      = (WebMercator.project (⟨30, 0⟩ : GeoPoint) 0).2 :=
    congrArg Prod.snd (Option.some.inj (hob ▸ h))
  have hform : (WebMercator.project (⟨30, 0⟩ : GeoPoint) 0).2
      = (1 / (2 * Real.pi)) * 2 ^ (0 : ℕ)
        * (Real.pi - Real.log (Real.tan (Real.pi / 4 + radians 30 / 2))) := rfl
  have hang : Real.pi / 4 + radians 30 / 2 = Real.pi / 3 := by
    unfold radians; ring
  have hlog : 0 < Real.log (Real.sqrt 3) := by
    apply Real.log_pos
    rw [show (1 : ℝ) = Real.sqrt 1 from Real.sqrt_one.symm]
    exact Real.sqrt_lt_sqrt (by norm_num) (by norm_num)
  have hs2pos : (0 : ℝ) < Real.sqrt 2 := Real.sqrt_pos.mpr (by norm_num)
  have hs2one : (1 : ℝ) < Real.sqrt 2 := by
    rw [show (1 : ℝ) = Real.sqrt 1 from Real.sqrt_one.symm]
    exact Real.sqrt_lt_sqrt (by norm_num) (by norm_num)
  have hy0 : (WebMercator.project (⟨30, 0⟩ : GeoPoint) 0).2 = 1 / 2 := by
    have hf : ((WebMercator.project (⟨30, 0⟩ : GeoPoint) 0).2 - (2 : ℝ) ^ (0 : ℕ) / 2)
        / Real.sqrt 2 + (2 : ℝ) ^ (0 : ℕ) / 2
        = (WebMercator.project (⟨30, 0⟩ : GeoPoint) 0).2 := hy
    rw [pow_zero] at hf
    have hd : ((WebMercator.project (⟨30, 0⟩ : GeoPoint) 0).2 - 1 / 2) / Real.sqrt 2
        = (WebMercator.project (⟨30, 0⟩ : GeoPoint) 0).2 - 1 / 2 := by linarith
    have hmul := (div_eq_iff (ne_of_gt hs2pos)).mp hd
    have hz : ((WebMercator.project (⟨30, 0⟩ : GeoPoint) 0).2 - 1 / 2)
        * (Real.sqrt 2 - 1) = 0 := by
      have h3 : ((WebMercator.project (⟨30, 0⟩ : GeoPoint) 0).2 - 1 / 2) * Real.sqrt 2
          - ((WebMercator.project (⟨30, 0⟩ : GeoPoint) 0).2 - 1 / 2) = 0 := by
        linarith
      calc ((WebMercator.project (⟨30, 0⟩ : GeoPoint) 0).2 - 1 / 2) * (Real.sqrt 2 - 1)
          = ((WebMercator.project (⟨30, 0⟩ : GeoPoint) 0).2 - 1 / 2) * Real.sqrt 2
            - ((WebMercator.project (⟨30, 0⟩ : GeoPoint) 0).2 - 1 / 2) := by ring
        _ = 0 := h3
    rcases mul_eq_zero.mp hz with h4 | h4
    · linarith
    · exfalso; linarith
  rw [hform, hang, Real.tan_pi_div_three, pow_zero, mul_one] at hy0
  have hπpos := Real.pi_pos
  field_simp at hy0
  linarith

/-- Claim C3 as amended (the nearby true statement): the northward
projection applies no axis remap (its x component is the standard one) but
does apply the equatorial foreshortening to the y component; it is the
standard projection composed with foreshortening, not the standard
projection itself. -/
theorem northward_projection_foreshortened (p : GeoPoint) (zoom : ℕ) :
    ObliqueWebMercator.project p zoom ViewDirection.northward
      = some ((WebMercator.project p zoom).1,
              foreshorten zoom (WebMercator.project p zoom).2) := rfl

/-- A map tile; source class MapTile(version, zoom, direction, x, y). The
mutable status and image fields of the source class are modelled separately
where the claims need them. -/
structure MapTile where
  version : ℕ
  zoom : ℕ
  direction : ViewDirection
  x : ℤ
  y : ℤ
deriving DecidableEq, Repr

/-- Source method GeoPoint.to_maptile: project with the standard projection,
replace the result by the oblique projection when the direction is oblique,
then floor both coordinates. The getD fallback stands for the ValueError
branch of ObliqueWebMercator.project, which is unreachable here because the
call is guarded by is_oblique. -/
noncomputable def GeoPoint.to_maptile (p : GeoPoint) (version : ℕ) (zoom : ℕ)
    (direction : ViewDirection) : MapTile :=
  let q := WebMercator.project p zoom
  let q2 := if direction.is_oblique
            then (ObliqueWebMercator.project p zoom direction).getD q else q
  ⟨version, zoom, direction, ⌊q2.1⌋, ⌊q2.2⌋⟩

/-- A rectangle between a southwestern and a northeastern corner; source
class GeoRect (the source asserts sw.lat <= ne.lat at construction). -/
structure GeoRect where
  sw : GeoPoint
  ne : GeoPoint

/-- Python range(a, b) over the integers. -/
def intRange (a b : ℤ) : List ℤ :=
  (List.range (b - a).toNat).map (fun i : ℕ => a + (i : ℤ))

theorem intRange_length (a b : ℤ) : (intRange a b).length = (b - a).toNat := by
  rw [intRange, List.length_map, List.length_range]

/-- A grid of map tiles kept as a nested list indexed [x][y]; source class
MapTileGrid with fields maptiles and version. -/
structure MapTileGrid where
  maptiles : List (List MapTile)
  version : ℕ
deriving DecidableEq, Repr

/-- Source field MapTileGrid.width = len(maptiles). -/
def MapTileGrid.width (g : MapTileGrid) : ℕ := g.maptiles.length

/-- Source field MapTileGrid.height = len(maptiles[0]). -/
def MapTileGrid.height (g : MapTileGrid) : ℕ := (g.maptiles.head?.getD []).length

/-- Python list subscription semantics: nonnegative indices look up from the
front, negative indices count from the back, anything out of range raises
IndexError (modelled as none). -/
def pyGet {α : Type} (l : List α) (i : ℤ) : Option α :=
  if 0 ≤ i then l.get? i.toNat
  else if 0 ≤ i + l.length then l.get? (i + l.length).toNat
  else none

/-- Source method MapTileGrid.at(x, y): add width/height once to negative
indices, then subscript the nested list. -/
def MapTileGrid.at (g : MapTileGrid) (x y : ℤ) : Option MapTile :=
  (pyGet g.maptiles (if x < 0 then x + g.width else x)).bind
    (fun col => pyGet col (if y < 0 then y + g.height else y))

/-- Source method MapTileGrid.flat: the grid flattened column by column. -/
def MapTileGrid.flat (g : MapTileGrid) : List MapTile := g.maptiles.flatten

/-- Source method MapTileGrid.corners:
[self.at(x, y) for x in [0, -1] for y in [0, -1]]. -/
def MapTileGrid.corners (g : MapTileGrid) : List (Option MapTile) :=
  [g.at 0 0, g.at 0 (-1), g.at (-1) 0, g.at (-1) (-1)]

/-- Source classmethod MapTileGrid.from_georect: project both corners of the
rectangle to tiles, normalize the corner ordering by swapping x values when
bottomleft.x > topright.x and swapping y values when bottomleft.y <
topright.y, then enumerate the inclusive coordinate ranges into the nested
tile list. -/
noncomputable def MapTileGrid.from_georect (georect : GeoRect) (zoom : ℕ)
    (direction : ViewDirection) (version : ℕ) : MapTileGrid :=
  let bottomleft := georect.sw.to_maptile version zoom direction
  let topright := georect.ne.to_maptile version zoom direction
  ⟨(intRange (if bottomleft.x > topright.x then topright.x else bottomleft.x)
      ((if bottomleft.x > topright.x then bottomleft.x else topright.x) + 1)).map
     (fun x =>
       (intRange (if bottomleft.y < topright.y then bottomleft.y else topright.y)
          ((if bottomleft.y < topright.y then topright.y else bottomleft.y) + 1)).map
         (fun y => (⟨version, zoom, direction, x, y⟩ : MapTile))),
   version⟩

theorem grid_mk_nondegenerate (version zoom : ℕ) (direction : ViewDirection)
    (a b c d : ℤ) (hab : a ≤ b) (hcd : c ≤ d) :
    1 ≤ (MapTileGrid.mk
          ((intRange a (b + 1)).map
            (fun x => (intRange c (d + 1)).map
              (fun y => (⟨version, zoom, direction, x, y⟩ : MapTile)))) version).width
    ∧ 1 ≤ (MapTileGrid.mk
          ((intRange a (b + 1)).map
            (fun x => (intRange c (d + 1)).map
              (fun y => (⟨version, zoom, direction, x, y⟩ : MapTile)))) version).height
    ∧ ∀ col ∈ (MapTileGrid.mk
          ((intRange a (b + 1)).map
            (fun x => (intRange c (d + 1)).map
              (fun y => (⟨version, zoom, direction, x, y⟩ : MapTile)))) version).maptiles,
        col.length = (MapTileGrid.mk
          ((intRange a (b + 1)).map
            (fun x => (intRange c (d + 1)).map
              (fun y => (⟨version, zoom, direction, x, y⟩ : MapTile)))) version).height := by
  have hcols : ∀ col ∈ ((intRange a (b + 1)).map
      (fun x => (intRange c (d + 1)).map
        (fun y => (⟨version, zoom, direction, x, y⟩ : MapTile)))),
      col.length = (d + 1 - c).toNat := by
    intro col hcol
    rcases List.mem_map.mp hcol with ⟨x, _, rfl⟩
    rw [List.length_map, intRange_length]
  have hW : 1 ≤ ((intRange a (b + 1)).map
      (fun x => (intRange c (d + 1)).map
        (fun y => (⟨version, zoom, direction, x, y⟩ : MapTile)))).length := by
    rw [List.length_map, intRange_length]
    omega
  obtain ⟨hd, tl, hM⟩ := List.exists_cons_of_ne_nil
    (List.ne_nil_of_length_pos (by omega :
      0 < ((intRange a (b + 1)).map
        (fun x => (intRange c (d + 1)).map
          (fun y => (⟨version, zoom, direction, x, y⟩ : MapTile)))).length))
  have hheight : (MapTileGrid.mk
      ((intRange a (b + 1)).map
        (fun x => (intRange c (d + 1)).map
          (fun y => (⟨version, zoom, direction, x, y⟩ : MapTile)))) version).height
      = (d + 1 - c).toNat := by
    unfold MapTileGrid.height
    simp only [hM]
    exact hcols hd (by rw [hM]; exact List.mem_cons_self _ _)
  refine ⟨hW, ?_, ?_⟩
  · rw [hheight]; omega
  · intro col hcol
    rw [hheight]
    exact hcols col hcol

/-- Claim C10 (confirmed): for every GeoRect, zoom, direction and version,
from_georect produces a grid with width and height at least 1 (and all
columns of the full height): the corner-ordering normalization makes both
inclusive enumeration ranges nonempty, so a degenerate grid cannot occur. -/
theorem from_georect_nondegenerate (georect : GeoRect) (zoom : ℕ)
    (direction : ViewDirection) (version : ℕ) :
    1 ≤ (MapTileGrid.from_georect georect zoom direction version).width
    ∧ 1 ≤ (MapTileGrid.from_georect georect zoom direction version).height
    ∧ ∀ col ∈ (MapTileGrid.from_georect georect zoom direction version).maptiles,
        col.length = (MapTileGrid.from_georect georect zoom direction version).height := by
  unfold MapTileGrid.from_georect
  apply grid_mk_nondegenerate
  · by_cases h : (georect.sw.to_maptile version zoom direction).x
        > (georect.ne.to_maptile version zoom direction).x
    · simp only [if_pos h]; omega
    · simp only [if_neg h]; omega
  · by_cases h : (georect.sw.to_maptile version zoom direction).y
        < (georect.ne.to_maptile version zoom direction).y
    · simp only [if_pos h]; omega
    · simp only [if_neg h]; omega

theorem at_negone_x (g : MapTileGrid) (hW : 1 ≤ g.width) (y : ℤ) :
    g.at (-1) y = g.at ((g.width : ℤ) - 1) y := by
  unfold MapTileGrid.at
  rw [if_pos (show (-1 : ℤ) < 0 by norm_num),
      if_neg (show ¬ ((g.width : ℤ) - 1 < 0) by omega),
      show (-1 : ℤ) + (g.width : ℤ) = (g.width : ℤ) - 1 from by ring]

theorem at_negone_y (g : MapTileGrid) (hH : 1 ≤ g.height) (x : ℤ) :
    g.at x (-1) = g.at x ((g.height : ℤ) - 1) := by
  unfold MapTileGrid.at
  simp only [if_pos (show (-1 : ℤ) < 0 by norm_num),
    if_neg (show ¬ ((g.height : ℤ) - 1 < 0) by omega),
    show (-1 : ℤ) + (g.height : ℤ) = (g.height : ℤ) - 1 from by ring]

/-- Claim C9 (confirmed): negative indices to at wrap once by adding the
dimension, so at(-1,-1) is the tile at (width-1, height-1); corners()
returns exactly the four tiles at positions in the set product of
x in (0, width-1) and y in (0, height-1); and when width or height is 1 some
corner entries alias the same tile. -/
theorem grid_at_wraparound_corners (g : MapTileGrid)
    (hW : 1 ≤ g.width) (hH : 1 ≤ g.height) :
    g.at (-1) (-1) = g.at ((g.width : ℤ) - 1) ((g.height : ℤ) - 1)
    ∧ g.corners = [g.at 0 0, g.at 0 ((g.height : ℤ) - 1),
                   g.at ((g.width : ℤ) - 1) 0,
                   g.at ((g.width : ℤ) - 1) ((g.height : ℤ) - 1)]
    ∧ (g.width = 1 → g.at ((g.width : ℤ) - 1) 0 = g.at 0 0
        ∧ g.at ((g.width : ℤ) - 1) ((g.height : ℤ) - 1) = g.at 0 ((g.height : ℤ) - 1))
    ∧ (g.height = 1 → g.at 0 ((g.height : ℤ) - 1) = g.at 0 0
        ∧ g.at ((g.width : ℤ) - 1) ((g.height : ℤ) - 1)
          = g.at ((g.width : ℤ) - 1) 0) := by
  refine ⟨?_, ?_, ?_, ?_⟩
  · rw [at_negone_x g hW (-1), at_negone_y g hH ((g.width : ℤ) - 1)]
  · unfold MapTileGrid.corners
    rw [at_negone_y g hH 0, at_negone_x g hW 0, at_negone_x g hW (-1),
        at_negone_y g hH ((g.width : ℤ) - 1)]
  · intro h1
    rw [show ((g.width : ℤ) - 1) = 0 from by omega]
    exact ⟨rfl, rfl⟩
  · intro h1
    rw [show ((g.height : ℤ) - 1) = 0 from by omega]
    exact ⟨rfl, rfl⟩

/-- A concrete 2 x 2 grid used to witness the wraparound claim. -/
def gridTwoByTwo : MapTileGrid :=
  ⟨[[⟨0, 0, ViewDirection.downward, 0, 0⟩, ⟨0, 0, ViewDirection.downward, 0, 1⟩],
    [⟨0, 0, ViewDirection.downward, 1, 0⟩, ⟨0, 0, ViewDirection.downward, 1, 1⟩]], 0⟩

theorem grid_at_wraparound_corners_witness :
    1 ≤ gridTwoByTwo.width ∧ 1 ≤ gridTwoByTwo.height
    ∧ (gridTwoByTwo.at (-1) (-1)
        = gridTwoByTwo.at ((gridTwoByTwo.width : ℤ) - 1) ((gridTwoByTwo.height : ℤ) - 1)
      ∧ gridTwoByTwo.corners
        = [gridTwoByTwo.at 0 0, gridTwoByTwo.at 0 ((gridTwoByTwo.height : ℤ) - 1),
           gridTwoByTwo.at ((gridTwoByTwo.width : ℤ) - 1) 0,
           gridTwoByTwo.at ((gridTwoByTwo.width : ℤ) - 1) ((gridTwoByTwo.height : ℤ) - 1)]
      ∧ (gridTwoByTwo.width = 1 →
          gridTwoByTwo.at ((gridTwoByTwo.width : ℤ) - 1) 0 = gridTwoByTwo.at 0 0
          ∧ gridTwoByTwo.at ((gridTwoByTwo.width : ℤ) - 1) ((gridTwoByTwo.height : ℤ) - 1)
            = gridTwoByTwo.at 0 ((gridTwoByTwo.height : ℤ) - 1))
      ∧ (gridTwoByTwo.height = 1 →
          gridTwoByTwo.at 0 ((gridTwoByTwo.height : ℤ) - 1) = gridTwoByTwo.at 0 0
          ∧ gridTwoByTwo.at ((gridTwoByTwo.width : ℤ) - 1) ((gridTwoByTwo.height : ℤ) - 1)
            = gridTwoByTwo.at ((gridTwoByTwo.width : ℤ) - 1) 0)) :=
  ⟨by decide, by decide,
   grid_at_wraparound_corners gridTwoByTwo (by decide) (by decide)⟩

/-- One pixel of a tile image: the three RGB channel values. -/
abbrev Pixel : Type := ℕ × ℕ × ℕ

/-- A tile image as the flat pixel list returned by getdata() in the source. -/
abbrev TileImage : Type := List Pixel

/-- Per-channel absolute difference, as computed by PIL inside
ImageChops.difference. -/
def channelDiff (m n : ℕ) : ℕ := max m n - min m n

/-- Pixelwise absolute difference of two images; source call
ImageChops.difference(self_corner.image, other_corner.image). -/
def ImageChops.difference (a b : TileImage) : TileImage :=
  List.zipWith
    (fun p q => (channelDiff p.1 q.1, channelDiff p.2.1 q.2.1, channelDiff p.2.2 q.2.2))
    a b

/-- The comparison loop of MapTileGrid.corners_identical_to: for each pair of
corresponding corner images, compute the difference image and return False
as soon as any pixel of it is not (0, 0, 0); return True if no pair
differs. The download-and-retry preamble of the source method is modelled
separately in the crawl model; this is the comparison itself, taking the
corner images as already available. -/
def corners_identical_to (selfCorners otherCorners : List TileImage) : Bool :=
  (List.zip selfCorners otherCorners).all
    (fun pr => (ImageChops.difference pr.1 pr.2).all
      (fun channels => channels == ((0 : ℕ), (0 : ℕ), (0 : ℕ))))

theorem channelDiff_eq_zero (m n : ℕ) : channelDiff m n = 0 ↔ m = n := by
  unfold channelDiff
  omega

theorem difference_cons (p q : Pixel) (ps qs : TileImage) :
    ImageChops.difference (p :: ps) (q :: qs)
      = (channelDiff p.1 q.1, channelDiff p.2.1 q.2.1, channelDiff p.2.2 q.2.2)
        :: ImageChops.difference ps qs := rfl

theorem image_diff_all_zero_iff (a b : TileImage) (h : a.length = b.length) :
    ((ImageChops.difference a b).all
      (fun channels => channels == ((0 : ℕ), (0 : ℕ), (0 : ℕ))) = true) ↔ a = b := by
  induction a generalizing b with
  | nil =>
      cases b with
      | nil => simp [ImageChops.difference]
      | cons q qs => simp at h
  | cons p ps ih =>
      cases b with
      | nil => simp at h
      | cons q qs =>
          have hlen : ps.length = qs.length := by simpa using h
          obtain ⟨p1, p2, p3⟩ := p
          obtain ⟨q1, q2, q3⟩ := q
          rw [difference_cons, List.all_cons, Bool.and_eq_true, ih qs hlen,
            List.cons.injEq]
          simp [Prod.mk.injEq, channelDiff_eq_zero]

/-- Claim C8 (confirmed): corners_identical_to is an exact per-pixel,
per-channel equality test: for corner image lists of matching shape it
returns true exactly when all corresponding pixels are equal, hence true on
identical corner lists (reflexivity) and false as soon as any single pixel
of any channel of any corner differs. -/
theorem corners_identical_to_iff_equal (selfCorners otherCorners : List TileImage)
    (hlen : selfCorners.length = otherCorners.length)
    (himg : ∀ pr ∈ List.zip selfCorners otherCorners, pr.1.length = pr.2.length) :
    corners_identical_to selfCorners otherCorners = true ↔ selfCorners = otherCorners := by
  induction selfCorners generalizing otherCorners with
  | nil =>
      cases otherCorners with
      | nil => simp [corners_identical_to]
      | cons b bs => simp at hlen
  | cons a as ih =>
      cases otherCorners with
      | nil => simp at hlen
      | cons b bs =>
          have h1 : a.length = b.length := by
            have : (a, b) ∈ List.zip (a :: as) (b :: bs) := by
              rw [List.zip_cons_cons]
              exact List.mem_cons_self _ _
            exact himg (a, b) this
          have hstep : corners_identical_to (a :: as) (b :: bs)
              = (((ImageChops.difference a b).all
                  (fun channels => channels == ((0 : ℕ), (0 : ℕ), (0 : ℕ))))
                && corners_identical_to as bs) := rfl
          rw [hstep, Bool.and_eq_true, image_diff_all_zero_iff a b h1,
            ih bs (by simpa using hlen)
              (fun pr hpr => himg pr (by rw [List.zip_cons_cons]; exact List.mem_cons_of_mem _ hpr)),
            List.cons.injEq]

/-- Corner images of a small grid, used to witness the corner comparison
claim: the second list differs from the first in a single channel of a
single pixel of one corner. -/
def cornersA : List TileImage :=
  [[(10, 20, 30)], [(1, 2, 3)], [(4, 5, 6)], [(7, 8, 9)]]

/-- See cornersA. -/
def cornersB : List TileImage :=
  [[(10, 20, 30)], [(1, 2, 3)], [(4, 5, 7)], [(7, 8, 9)]]

/-- Tile download status; source class MapTileStatus. -/
inductive MapTileStatus where
  | PENDING
  | DOWNLOADING
  | DOWNLOADED
  | ERROR
deriving DecidableEq, Repr

/-- Payload of the source exception MissingTilesError(message, missing,
total); the human-readable message is irrelevant to the claims. -/
structure MissingTilesError where
  missing : ℕ
  total : ℕ
deriving DecidableEq, Repr

/-- A tile as seen by the retry tail of MapTileGrid.download: its status
after the thread pool has drained, plus the environment fact of whether one
further download attempt on this tile would succeed. -/
structure RetryTile where
  status : MapTileStatus
  retrySucceeds : Bool
deriving DecidableEq, Repr

/-- Source method MapTile.load: re-download unless the status is already
DOWNLOADED; the outcome of the new attempt is taken from the environment
field. -/
def RetryTile.load (t : RetryTile) : RetryTile :=
  if t.status = MapTileStatus.DOWNLOADED then t
  else ⟨if t.retrySucceeds then MapTileStatus.DOWNLOADED else MapTileStatus.ERROR,
        t.retrySucceeds⟩

/-- Source expression inside MapTileGrid.download:
[maptile for maptile in self.flat() if maptile.status == MapTileStatus.ERROR]. -/
def missing_tiles (tiles : List (List RetryTile)) : List RetryTile :=
  tiles.flatten.filter (fun t => t.status = MapTileStatus.ERROR)

/-- The retry condition of MapTileGrid.download:
0 < len(missing_tiles) < 0.2 * len(self.flat()). The source compares against
the double literal 0.2; for every realistic tile count (anything below 2^53)
that comparison agrees with the exact rational one used here, because the
rounding error of 0.2 * total stays below the distance to the nearest
integer. -/
def retriesHappen (tiles : List (List RetryTile)) : Prop :=
  0 < (missing_tiles tiles).length
  ∧ ((missing_tiles tiles).length : ℚ) < 0.2 * (tiles.flatten.length : ℚ)

instance (tiles : List (List RetryTile)) : Decidable (retriesHappen tiles) := by
  unfold retriesHappen
  infer_instance

/-- The serial retry loop of MapTileGrid.download: each tile currently in
ERROR has load() called on it once; all other tiles are untouched. -/
def retryErrors (tiles : List (List RetryTile)) : List (List RetryTile) :=
  tiles.map (List.map (fun t => if t.status = MapTileStatus.ERROR then t.load else t))

/-- The final check of MapTileGrid.download: recompute the missing tiles and
raise MissingTilesError(len(missing_tiles), len(self.flat())) if any remain;
none models a normal return. -/
def downloadCheck (tiles : List (List RetryTile)) : Option MissingTilesError :=
  if (missing_tiles tiles).length ≠ 0
  then some ⟨(missing_tiles tiles).length, tiles.flatten.length⟩
  else none

/-- The post-pool tail of source method MapTileGrid.download: retry the
failed tiles once when the retry condition holds, then check for leftovers. -/
def MapTileGrid.download (tiles : List (List RetryTile)) : Option MissingTilesError :=
  downloadCheck (if retriesHappen tiles then retryErrors tiles else tiles)

/-- Spec-side count of the tiles in ERROR state after the pool drained. -/
def errorCount (tiles : List (List RetryTile)) : ℕ := (missing_tiles tiles).length

/-- Spec-side count of the tiles in ERROR state whose retry would fail too. -/
def stubbornCount (tiles : List (List RetryTile)) : ℕ :=
  (tiles.flatten.filter
    (fun t => t.status = MapTileStatus.ERROR ∧ t.retrySucceeds = false)).length

theorem flatten_length_rect (tiles : List (List RetryTile)) (H : ℕ)
    (hrect : ∀ col ∈ tiles, col.length = H) :
    tiles.flatten.length = tiles.length * H := by
  induction tiles with
  | nil => simp
  | cons c cs ih =>
      rw [List.flatten_cons, List.length_append,
        ih (fun col hcol => hrect col (List.mem_cons_of_mem _ hcol)),
        hrect c (List.mem_cons_self _ _), List.length_cons]
      ring

theorem retryErrors_flatten (tiles : List (List RetryTile)) :
    (retryErrors tiles).flatten
      = tiles.flatten.map (fun t => if t.status = MapTileStatus.ERROR then t.load else t) := by
  unfold retryErrors
  induction tiles with
  | nil => rfl
  | cons c cs ih =>
      rw [List.map_cons, List.flatten_cons, List.flatten_cons, List.map_append, ih]

theorem missing_after_retry (tiles : List (List RetryTile)) :
    (missing_tiles (retryErrors tiles)).length = stubbornCount tiles := by
  unfold missing_tiles stubbornCount
  rw [retryErrors_flatten, List.filter_map, List.length_map, List.filter_congr]
  intro t _
  rcases t with ⟨s, r⟩
  cases s <;> cases r <;> rfl

theorem retryErrors_flatten_length (tiles : List (List RetryTile)) :
    (retryErrors tiles).flatten.length = tiles.flatten.length := by
  rw [retryErrors_flatten, List.length_map]

/-- Claim C6 (confirmed): after the pool drains, the failed tiles are
retried once exactly when 0 < errors < 0.2 * total; afterwards the method
raises MissingTilesError carrying the number of tiles still in ERROR and
the total width * height tile count exactly when at least one tile remains
in ERROR, and returns normally otherwise. The two implications cover the
retry and no-retry cases; the retried run ends with exactly the errored
tiles whose single retry also fails. -/
theorem grid_download_retry_and_error_spec (tiles : List (List RetryTile)) (H : ℕ)
    (hrect : ∀ col ∈ tiles, col.length = H) :
    tiles.flatten.length = tiles.length * H
    ∧ (retriesHappen tiles →
        MapTileGrid.download tiles
          = if stubbornCount tiles = 0 then none
            else some ⟨stubbornCount tiles, tiles.length * H⟩)
    ∧ (¬ retriesHappen tiles →
        MapTileGrid.download tiles
          = if errorCount tiles = 0 then none
            else some ⟨errorCount tiles, tiles.length * H⟩) := by
  have htot := flatten_length_rect tiles H hrect
  refine ⟨htot, ?_, ?_⟩
  · intro hr
    unfold MapTileGrid.download downloadCheck
    rw [if_pos hr, missing_after_retry, retryErrors_flatten_length, htot]
    by_cases hs : stubbornCount tiles = 0
    · rw [if_neg (by omega), if_pos hs]
    · rw [if_pos hs, if_neg (by omega)]
  · intro hr
    unfold MapTileGrid.download downloadCheck
    rw [if_neg hr]
    have herr : errorCount tiles = (missing_tiles tiles).length := rfl
    by_cases he : errorCount tiles = 0
    · rw [if_neg (by omega : ¬ (missing_tiles tiles).length ≠ 0), if_pos he]
    · rw [if_pos (by omega : (missing_tiles tiles).length ≠ 0), if_neg he, htot, herr]

theorem corners_identical_to_iff_equal_witness :
    cornersA.length = cornersB.length
    ∧ (∀ pr ∈ List.zip cornersA cornersB, pr.1.length = pr.2.length)
    ∧ (corners_identical_to cornersA cornersB = true ↔ cornersA = cornersB) :=
  ⟨by decide, by decide,
   corners_identical_to_iff_equal cornersA cornersB (by decide) (by decide)⟩

/-- Environment of the version crawl loop in source function main: for each
candidate version, the corner imagery of its grid, whether fetching those
corner tiles raises MissingTilesError, and whether the full grid download
raises MissingTilesError. -/
structure CrawlEnv where
  cornersOf : ℕ → List TileImage
  cornerFetch : ℕ → Option MissingTilesError
  fullFetch : ℕ → Option MissingTilesError

/-- Observable events of one crawl run: a corner comparison of version v
against the reference grid of version ref, and a full grid download attempt
of version v that succeeded (ok) or raised MissingTilesError. -/
inductive CrawlEv where
  | cornersCompared (v ref : ℕ) (identical : Bool)
  | fullDownload (v : ℕ) (ok : Bool)
deriving DecidableEq, Repr

/-- How a crawl run ends in source function main: the RuntimeError raised
when the supposedly-current version cannot be downloaded, or termination
with the list of versions whose images were produced; finalized records
whether the graceful except-branch ran (writing the GIF) as opposed to the
loop running out at version 0. -/
inductive CrawlOutcome where
  | fatalCurrentVersion
  | finished (downloaded : List ℕ) (finalized : Bool)
deriving DecidableEq, Repr

/-- Result of one loop iteration of source function main: the version was
skipped after an identical corner comparison, fully downloaded, ended the
crawl gracefully via the except-branch, or raised the fatal RuntimeError. -/
inductive StepRes where
  | skip
  | gotIt
  | graceful
  | fatal
deriving DecidableEq, Repr

/-- The grid.download() call of one iteration of main, with the except
MissingTilesError handler: on failure the run is fatal when the version is
the current one and ends gracefully otherwise. -/
def crawlDL (env : CrawlEnv) (current v : ℕ) : StepRes × List CrawlEv :=
  match env.fullFetch v with
  | some _ => (if v = current then StepRes.fatal else StepRes.graceful,
               [CrawlEv.fullDownload v false])
  | none => (StepRes.gotIt, [CrawlEv.fullDownload v true])

/-- One iteration of the version loop of main at version v with reference
grid prev: on any iteration but the first, download the corner tiles
(failure raises MissingTilesError, handled like any other, with no
comparison performed) and compare them against the reference corners,
skipping the version when they are identical; otherwise (and always on the
first iteration) run the full download. The prev = none case on a non-first
iteration is unreachable from crawl, which starts at the current version;
the source asserts the reference corners are downloaded. -/
def crawlStep (env : CrawlEnv) (current v : ℕ) (prev : Option ℕ) :
    StepRes × List CrawlEv :=
  if v = current then crawlDL env current v
  else
    match env.cornerFetch v with
    | some _ => (StepRes.graceful, [])
    | none =>
        match prev with
        | some r =>
            if corners_identical_to (env.cornersOf v) (env.cornersOf r)
            then (StepRes.skip, [CrawlEv.cornersCompared v r true])
            else ((crawlDL env current v).1,
                  CrawlEv.cornersCompared v r false :: (crawlDL env current v).2)
        | none => crawlDL env current v

/-- The descending version loop of main, from version v down to 0: a skipped
version leaves the reference grid and the downloaded list unchanged; a full
download makes the version the new reference and appends it to the
downloaded images; the graceful except-branch finalizes output and breaks;
the fatal branch raises. Running past version 0 ends the loop without the
finalizing branch. The second component is the event trace. -/
def crawlGo (env : CrawlEnv) (current : ℕ) :
    ℕ → Option ℕ → List ℕ → CrawlOutcome × List CrawlEv
  | 0, prev, acc =>
      match (crawlStep env current 0 prev).1 with
      | StepRes.skip => (CrawlOutcome.finished acc false, (crawlStep env current 0 prev).2)
      | StepRes.gotIt =>
          (CrawlOutcome.finished (acc ++ [0]) false, (crawlStep env current 0 prev).2)
      | StepRes.graceful => (CrawlOutcome.finished acc true, (crawlStep env current 0 prev).2)
      | StepRes.fatal => (CrawlOutcome.fatalCurrentVersion, (crawlStep env current 0 prev).2)
  | v + 1, prev, acc =>
      match (crawlStep env current (v + 1) prev).1 with
      | StepRes.skip =>
          ((crawlGo env current v prev acc).1,
           (crawlStep env current (v + 1) prev).2 ++ (crawlGo env current v prev acc).2)
      | StepRes.gotIt =>
          ((crawlGo env current v (some (v + 1)) (acc ++ [v + 1])).1,
           (crawlStep env current (v + 1) prev).2
             ++ (crawlGo env current v (some (v + 1)) (acc ++ [v + 1])).2)
      | StepRes.graceful => (CrawlOutcome.finished acc true, (crawlStep env current (v + 1) prev).2)
      | StepRes.fatal => (CrawlOutcome.fatalCurrentVersion, (crawlStep env current (v + 1) prev).2)

/-- The whole crawl of source function main: iterate from the current
version downward with no reference grid and no downloaded images yet. -/
def crawl (env : CrawlEnv) (current : ℕ) : CrawlOutcome × List CrawlEv :=
  crawlGo env current current none []

/-- The version an event belongs to. -/
def evVersion : CrawlEv → ℕ
  | CrawlEv.cornersCompared v _ _ => v
  | CrawlEv.fullDownload v _ => v

/-- The version of the most recent successful full download in a trace,
starting from the reference p established before the trace. -/
def lastSuccessFrom (p : Option ℕ) : List CrawlEv → Option ℕ
  | [] => p
  | e :: rest =>
      lastSuccessFrom
        (match e with
         | CrawlEv.fullDownload v true => some v
         | _ => p) rest

theorem lastSuccessFrom_cmp (p : Option ℕ) (w r : ℕ) (b : Bool) (t : List CrawlEv) :
    lastSuccessFrom p (CrawlEv.cornersCompared w r b :: t) = lastSuccessFrom p t := rfl

theorem lastSuccessFrom_dl_true (p : Option ℕ) (v : ℕ) (t : List CrawlEv) :
    lastSuccessFrom p (CrawlEv.fullDownload v true :: t) = lastSuccessFrom (some v) t := rfl

theorem lastSuccessFrom_dl_false (p : Option ℕ) (v : ℕ) (t : List CrawlEv) :
    lastSuccessFrom p (CrawlEv.fullDownload v false :: t) = lastSuccessFrom p t := rfl

theorem crawlDL_shape (env : CrawlEnv) (current v : ℕ) :
    (∃ e, env.fullFetch v = some e
      ∧ crawlDL env current v
        = (if v = current then StepRes.fatal else StepRes.graceful,
           [CrawlEv.fullDownload v false]))
    ∨ (env.fullFetch v = none
      ∧ crawlDL env current v = (StepRes.gotIt, [CrawlEv.fullDownload v true])) := by
  unfold crawlDL
  cases hf : env.fullFetch v with
  | some e => exact Or.inl ⟨e, rfl, rfl⟩
  | none => exact Or.inr ⟨rfl, rfl⟩

theorem crawlStep_shape (env : CrawlEnv) (current v : ℕ) (prev : Option ℕ) :
    ((crawlStep env current v prev).2 = []
      ∧ (crawlStep env current v prev).1 = StepRes.graceful)
    ∨ (∃ ok, (crawlStep env current v prev).2 = [CrawlEv.fullDownload v ok]
        ∧ ((ok = true ∧ (crawlStep env current v prev).1 = StepRes.gotIt)
           ∨ (ok = false ∧ ((crawlStep env current v prev).1 = StepRes.graceful
                ∨ (crawlStep env current v prev).1 = StepRes.fatal))))
    ∨ (∃ r, prev = some r ∧ v ≠ current
        ∧ (crawlStep env current v prev).2 = [CrawlEv.cornersCompared v r true]
        ∧ (crawlStep env current v prev).1 = StepRes.skip)
    ∨ (∃ r ok, prev = some r ∧ v ≠ current
        ∧ (crawlStep env current v prev).2
          = [CrawlEv.cornersCompared v r false, CrawlEv.fullDownload v ok]
        ∧ ((ok = true ∧ (crawlStep env current v prev).1 = StepRes.gotIt)
           ∨ (ok = false ∧ (crawlStep env current v prev).1 = StepRes.graceful))) := by
  have hdl := crawlDL_shape env current v
  unfold crawlStep
  by_cases hvc : v = current
  · rw [if_pos hvc]
    rcases hdl with ⟨e, hf, hdl⟩ | ⟨hf, hdl⟩
    · right; left
      refine ⟨false, ?_, Or.inr ⟨rfl, ?_⟩⟩
      · rw [hdl]
      · right; rw [hdl, if_pos hvc]
    · right; left
      exact ⟨true, by rw [hdl], Or.inl ⟨rfl, by rw [hdl]⟩⟩
  · rw [if_neg hvc]
    cases hcf : env.cornerFetch v with
    | some e => exact Or.inl ⟨rfl, rfl⟩
    | none =>
        cases prev with
        | none =>
            rcases hdl with ⟨e, hf, hdl⟩ | ⟨hf, hdl⟩
            · right; left
              refine ⟨false, by rw [hdl], Or.inr ⟨rfl, ?_⟩⟩
              left; rw [hdl, if_neg hvc]
            · right; left
              exact ⟨true, by rw [hdl], Or.inl ⟨rfl, by rw [hdl]⟩⟩
        | some r =>
            by_cases hid : corners_identical_to (env.cornersOf v) (env.cornersOf r)
            · right; right; left
              refine ⟨r, rfl, hvc, ?_, ?_⟩
              · simp only [hid, if_true]
              · simp only [hid, if_true]
            · right; right; right
              rcases hdl with ⟨e, hf, hdl⟩ | ⟨hf, hdl⟩
              · refine ⟨r, false, rfl, hvc, ?_, Or.inr ⟨rfl, ?_⟩⟩
                · simp only [hid, if_false, Bool.false_eq_true, hdl]
                · simp only [hid, if_false, Bool.false_eq_true, hdl, if_neg hvc]
              · refine ⟨r, true, rfl, hvc, ?_, Or.inl ⟨rfl, ?_⟩⟩
                · simp only [hid, if_false, Bool.false_eq_true, hdl]
                · simp only [hid, if_false, Bool.false_eq_true, hdl]

theorem crawlStep_ev_version (env : CrawlEnv) (current v : ℕ) (prev : Option ℕ) :
    ∀ ev ∈ (crawlStep env current v prev).2, evVersion ev = v := by
  intro ev hev
  rcases crawlStep_shape env current v prev with
    ⟨h2, _⟩ | ⟨ok, h2, _⟩ | ⟨r, _, _, h2, _⟩ | ⟨r, ok, _, _, h2, _⟩
  · rw [h2] at hev
    exact absurd hev (List.not_mem_nil ev)
  · rw [h2] at hev
    obtain rfl := List.mem_singleton.mp hev
    rfl
  · rw [h2] at hev
    obtain rfl := List.mem_singleton.mp hev
    rfl
  · rw [h2] at hev
    rcases List.mem_cons.mp hev with rfl | h3
    · rfl
    · obtain rfl := List.mem_singleton.mp h3
      rfl

theorem crawlGo_trace_zero (env : CrawlEnv) (current : ℕ) (prev : Option ℕ)
    (acc : List ℕ) :
    (crawlGo env current 0 prev acc).2 = (crawlStep env current 0 prev).2 := by
  cases hres : (crawlStep env current 0 prev).1 <;> simp only [crawlGo, hres]

theorem crawlGo_version_bound (env : CrawlEnv) (current : ℕ) :
    ∀ (v : ℕ) (prev : Option ℕ) (acc : List ℕ) (ev : CrawlEv),
      ev ∈ (crawlGo env current v prev acc).2 → evVersion ev ≤ v := by
  intro v
  induction v with
  | zero =>
      intro prev acc ev hev
      rw [crawlGo_trace_zero] at hev
      exact le_of_eq (crawlStep_ev_version env current 0 prev ev hev)
  | succ v ih =>
      intro prev acc ev hev
      cases hres : (crawlStep env current (v + 1) prev).1 with
      | skip =>
          simp only [crawlGo, hres] at hev
          rcases List.mem_append.mp hev with h | h
          · exact le_of_eq (crawlStep_ev_version env current (v + 1) prev ev h)
          · exact le_trans (ih prev acc ev h) (Nat.le_succ v)
      | gotIt =>
          simp only [crawlGo, hres] at hev
          rcases List.mem_append.mp hev with h | h
          · exact le_of_eq (crawlStep_ev_version env current (v + 1) prev ev h)
          · exact le_trans (ih (some (v + 1)) (acc ++ [v + 1]) ev h) (Nat.le_succ v)
      | graceful =>
          simp only [crawlGo, hres] at hev
          exact le_of_eq (crawlStep_ev_version env current (v + 1) prev ev hev)
      | fatal =>
          simp only [crawlGo, hres] at hev
          exact le_of_eq (crawlStep_ev_version env current (v + 1) prev ev hev)

theorem crawl_compare_invariant_general (env : CrawlEnv) (current : ℕ) :
    ∀ (v : ℕ) (prev : Option ℕ) (acc : List ℕ) (t1 : List CrawlEv) (w r : ℕ)
      (b : Bool) (t2 : List CrawlEv),
      (crawlGo env current v prev acc).2 = t1 ++ CrawlEv.cornersCompared w r b :: t2 →
      w ≠ current
      ∧ lastSuccessFrom prev t1 = some r
      ∧ (b = true → ∀ ok, CrawlEv.fullDownload w ok ∉ t2)
      ∧ (b = false → ∃ ok t3, t2 = CrawlEv.fullDownload w ok :: t3) := by
  intro v
  induction v with
  | zero =>
      intro prev acc t1 w r b t2 htr
      rw [crawlGo_trace_zero] at htr
      rcases crawlStep_shape env current 0 prev with
        ⟨h2, _⟩ | ⟨ok, h2, _⟩ | ⟨r0, hprev, hvc, h2, _⟩ | ⟨r0, ok, hprev, hvc, h2, _⟩
      · rw [h2] at htr
        exact absurd htr (by simp)
      · rw [h2] at htr
        cases t1 with
        | nil => simp at htr
        | cons a t1 =>
            rw [List.cons_append] at htr
            simp only [List.cons.injEq] at htr
            obtain ⟨ha, htr⟩ := htr
            simp at htr
      · rw [h2] at htr
        cases t1 with
        | nil =>
            simp only [List.nil_append, List.cons.injEq,
              CrawlEv.cornersCompared.injEq] at htr
            obtain ⟨⟨hw, hr, hb⟩, ht2⟩ := htr
            subst hw; subst hr; subst hb; subst ht2
            refine ⟨hvc, hprev, ?_, ?_⟩
            · intro _ ok hmem
              exact absurd hmem (List.not_mem_nil _)
            · intro hb'
              simp at hb'
        | cons a t1 =>
            rw [List.cons_append] at htr
            simp only [List.cons.injEq] at htr
            obtain ⟨ha, htr⟩ := htr
            simp at htr
      · rw [h2] at htr
        cases t1 with
        | nil =>
            simp only [List.nil_append, List.cons.injEq,
              CrawlEv.cornersCompared.injEq] at htr
            obtain ⟨⟨hw, hr, hb⟩, ht2⟩ := htr
            subst hw; subst hr; subst hb; subst ht2
            refine ⟨hvc, hprev, ?_, ?_⟩
            · intro hb'
              simp at hb'
            · intro _
              exact ⟨ok, [], rfl⟩
        | cons a t1 =>
            rw [List.cons_append] at htr
            simp only [List.cons.injEq] at htr
            obtain ⟨ha, htr⟩ := htr
            cases t1 with
            | nil =>
                simp only [List.nil_append, List.cons.injEq] at htr
                obtain ⟨hbad, _⟩ := htr
                exact absurd hbad (by simp)
            | cons a2 t1 =>
                rw [List.cons_append] at htr
                simp only [List.cons.injEq] at htr
                obtain ⟨_, htr⟩ := htr
                simp at htr
  | succ v ih =>
      intro prev acc t1 w r b t2 htr
      rcases crawlStep_shape env current (v + 1) prev with
        ⟨h2, hres⟩ | ⟨ok, h2, hok⟩ | ⟨r0, hprev, hvc, h2, hres⟩
        | ⟨r0, ok, hprev, hvc, h2, hok⟩
      · simp only [crawlGo, hres] at htr
        rw [h2] at htr
        exact absurd htr (by simp)
      · rcases hok with ⟨hoktrue, hres⟩ | ⟨hokfalse, hres⟩
        · subst hoktrue
          simp only [crawlGo, hres] at htr
          rw [h2, List.singleton_append] at htr
          cases t1 with
          | nil =>
              simp only [List.nil_append, List.cons.injEq] at htr
              obtain ⟨hbad, _⟩ := htr
              exact absurd hbad (by simp)
          | cons a t1 =>
              rw [List.cons_append] at htr
              simp only [List.cons.injEq] at htr
              obtain ⟨ha, htr⟩ := htr
              subst ha
              obtain ⟨c1, c2, c3, c4⟩ := ih (some (v + 1)) (acc ++ [v + 1]) t1 w r b t2 htr
              exact ⟨c1, by rw [lastSuccessFrom_dl_true]; exact c2, c3, c4⟩
        · subst hokfalse
          rcases hres with hres | hres <;>
            · simp only [crawlGo, hres] at htr
              rw [h2] at htr
              cases t1 with
              | nil => simp at htr
              | cons a t1 =>
                  rw [List.cons_append] at htr
                  simp only [List.cons.injEq] at htr
                  obtain ⟨ha, htr⟩ := htr
                  simp at htr
      · simp only [crawlGo, hres] at htr
        rw [h2, List.singleton_append] at htr
        cases t1 with
        | nil =>
            simp only [List.nil_append, List.cons.injEq, CrawlEv.cornersCompared.injEq] at htr
            obtain ⟨⟨hw, hr, hb⟩, ht2⟩ := htr
            subst hw; subst hr; subst hb; subst ht2
            refine ⟨hvc, hprev, ?_, ?_⟩
            · intro _ ok hmem
              have hbound := crawlGo_version_bound env current v prev acc _ hmem
              simp only [evVersion] at hbound
              omega
            · intro hb'
              simp at hb'
        | cons a t1 =>
            rw [List.cons_append] at htr
            simp only [List.cons.injEq] at htr
            obtain ⟨ha, htr⟩ := htr
            subst ha
            obtain ⟨c1, c2, c3, c4⟩ := ih prev acc t1 w r b t2 htr
            exact ⟨c1, by rw [lastSuccessFrom_cmp]; exact c2, c3, c4⟩
      · rcases hok with ⟨hoktrue, hres⟩ | ⟨hokfalse, hres⟩
        · subst hoktrue
          simp only [crawlGo, hres] at htr
          rw [h2] at htr
          rw [List.cons_append, List.singleton_append] at htr
          cases t1 with
          | nil =>
              simp only [List.nil_append, List.cons.injEq, CrawlEv.cornersCompared.injEq] at htr
              obtain ⟨⟨hw, hr, hb⟩, ht2⟩ := htr
              subst hw; subst hr; subst hb; subst ht2
              refine ⟨hvc, hprev, ?_, ?_⟩
              · intro hb'
                simp at hb'
              · intro _
                exact ⟨true, (crawlGo env current v (some (v + 1)) (acc ++ [v + 1])).2, rfl⟩
          | cons a t1 =>
              rw [List.cons_append] at htr
              simp only [List.cons.injEq] at htr
              obtain ⟨ha, htr⟩ := htr
              subst ha
              cases t1 with
              | nil =>
                  simp only [List.nil_append, List.cons.injEq] at htr
                  obtain ⟨hbad, _⟩ := htr
                  exact absurd hbad (by simp)
              | cons a2 t1 =>
                  rw [List.cons_append] at htr
                  simp only [List.cons.injEq] at htr
                  obtain ⟨ha2, htr⟩ := htr
                  subst ha2
                  obtain ⟨c1, c2, c3, c4⟩ := ih (some (v + 1)) (acc ++ [v + 1]) t1 w r b t2 htr
                  exact ⟨c1,
                    by rw [lastSuccessFrom_cmp, lastSuccessFrom_dl_true]; exact c2, c3, c4⟩
        · subst hokfalse
          simp only [crawlGo, hres] at htr
          rw [h2] at htr
          cases t1 with
          | nil =>
              simp only [List.nil_append, List.cons.injEq,
                CrawlEv.cornersCompared.injEq] at htr
              obtain ⟨⟨hw, hr, hb⟩, ht2⟩ := htr
              subst hw; subst hr; subst hb; subst ht2
              refine ⟨hvc, hprev, ?_, ?_⟩
              · intro hb'
                simp at hb'
              · intro _
                exact ⟨false, [], rfl⟩
          | cons a t1 =>
              rw [List.cons_append] at htr
              simp only [List.cons.injEq] at htr
              obtain ⟨ha, htr⟩ := htr
              cases t1 with
              | nil =>
                  simp only [List.nil_append, List.cons.injEq] at htr
                  obtain ⟨hbad, _⟩ := htr
                  exact absurd hbad (by simp)
              | cons a2 t1 =>
                  rw [List.cons_append] at htr
                  simp only [List.cons.injEq] at htr
                  obtain ⟨_, htr⟩ := htr
                  simp at htr

/-- Claim C5 (confirmed): whenever the crawl trace contains a corner
comparison of version w against reference r, that comparison happens on a
non-first iteration, the reference r is the most recently successfully
fully-downloaded version before it (the initial reference being none); an
identical comparison is followed by no full download of w anywhere later
(the version is skipped, and with no success event added the reference of
the next comparison is unchanged, by the same second conjunct applied
there); a differing comparison is immediately followed by the full download
of w, which on success becomes the reference of later comparisons (again by
the second conjunct). -/
theorem crawl_compare_reference_invariant (env : CrawlEnv) (current : ℕ)
    (t1 : List CrawlEv) (w r : ℕ) (b : Bool) (t2 : List CrawlEv)
    (htr : (crawl env current).2 = t1 ++ CrawlEv.cornersCompared w r b :: t2) :
    w ≠ current
    ∧ lastSuccessFrom none t1 = some r
    ∧ (b = true → ∀ ok, CrawlEv.fullDownload w ok ∉ t2)
    ∧ (b = false → ∃ ok t3, t2 = CrawlEv.fullDownload w ok :: t3) :=
  crawl_compare_invariant_general env current current none [] t1 w r b t2 htr

/-- Crawl environment witnessing the comparison invariant: versions 1 and 0
have different corner imagery and every download succeeds. -/
def envCompare : CrawlEnv :=
  ⟨fun v => if v = 1 then [[(1, 1, 1)]] else [[(0, 0, 0)]],
   fun _ => none,
   fun _ => none⟩

theorem crawl_compare_reference_invariant_witness :
    (crawl envCompare 1).2
      = [CrawlEv.fullDownload 1 true]
        ++ CrawlEv.cornersCompared 0 1 false :: [CrawlEv.fullDownload 0 true]
    ∧ ((0 : ℕ) ≠ 1
       ∧ lastSuccessFrom none [CrawlEv.fullDownload 1 true] = some 1
       ∧ (false = true → ∀ ok, CrawlEv.fullDownload 0 ok ∉ [CrawlEv.fullDownload 0 true])
       ∧ (false = false → ∃ ok t3,
            [CrawlEv.fullDownload 0 true] = CrawlEv.fullDownload 0 ok :: t3)) :=
  ⟨by decide,
   crawl_compare_reference_invariant envCompare 1 [CrawlEv.fullDownload 1 true] 0 1 false
     [CrawlEv.fullDownload 0 true] (by decide)⟩

theorem crawlGo_fatal (env : CrawlEnv) (current v : ℕ) (prev : Option ℕ)
    (acc : List ℕ) (hres : (crawlStep env current v prev).1 = StepRes.fatal) :
    (crawlGo env current v prev acc).1 = CrawlOutcome.fatalCurrentVersion := by
  cases v with
  | zero => simp only [crawlGo, hres]
  | succ n => simp only [crawlGo, hres]

theorem crawlGo_graceful (env : CrawlEnv) (current v : ℕ) (prev : Option ℕ)
    (acc : List ℕ) (hres : (crawlStep env current v prev).1 = StepRes.graceful) :
    (crawlGo env current v prev acc).1 = CrawlOutcome.finished acc true := by
  cases v with
  | zero => simp only [crawlGo, hres]
  | succ n => simp only [crawlGo, hres]

/-- Claim C7 (confirmed): when the full grid download of the configured
current version fails on the very first iteration, whatever the missing
count, the whole run ends with the fatal current-version RuntimeError, an
outcome that produces no output artifact. -/
theorem first_iteration_failure_fatal (env : CrawlEnv) (current : ℕ)
    (e : MissingTilesError) (hff : env.fullFetch current = some e) :
    (crawl env current).1 = CrawlOutcome.fatalCurrentVersion := by
  apply crawlGo_fatal
  unfold crawlStep crawlDL
  rw [if_pos rfl]
  simp [hff]

/-- Crawl environment witnessing the fatal first iteration: every full
download fails with all four tiles missing. -/
def envCurrentFails : CrawlEnv :=
  ⟨fun _ => [], fun _ => none, fun _ => some ⟨4, 4⟩⟩

theorem first_iteration_failure_fatal_witness :
    envCurrentFails.fullFetch 3 = some ⟨4, 4⟩
    ∧ (crawl envCurrentFails 3).1 = CrawlOutcome.fatalCurrentVersion :=
  ⟨rfl, first_iteration_failure_fatal envCurrentFails 3 ⟨4, 4⟩ rfl⟩

/-- Crawl environment for the partial-failure claim: version 1 downloads
fully, version 0 has different corner imagery and its full download fails
with 1 of 4 tiles missing. -/
def envPartialFail : CrawlEnv :=
  ⟨fun v => if v = 1 then [[(1, 1, 1)]] else [[(0, 0, 0)]],
   fun _ => none,
   fun v => if v = 0 then some ⟨1, 4⟩ else none⟩

/-- Claim C2, counterexample: with current version 1 and a second iteration
whose full download fails with missing = 1 of total = 4 (a strict subset in
error), the crawl terminates normally and finalizes output (finished with
the finalizing except-branch taken) instead of surfacing a hard error
distinct from history exhaustion; the code has no such distinct error. -/
theorem crawl_partial_failure_counterexample :
    envPartialFail.fullFetch 0 = some ⟨1, 4⟩
    ∧ 0 < (1 : ℕ) ∧ (1 : ℕ) < 4
    ∧ (crawl envPartialFail 1).1 = CrawlOutcome.finished [1] true := by
  decide

/-- Claim C2 as amended (the nearby true statement): on a non-first
iteration whose corners differ, a full grid download failure with any
missing/total counts, 0 < missing < total included, makes the crawl
terminate normally through the graceful except-branch, finalizing output
with the versions collected so far, exactly as on history exhaustion; no
distinct transient-failure error exists. -/
theorem crawl_partial_failure_finalizes_normally (env : CrawlEnv) (current v : ℕ)
    (prev : Option ℕ) (acc : List ℕ) (r : ℕ) (e : MissingTilesError)
    (hvc : v ≠ current) (hcf : env.cornerFetch v = none) (hprev : prev = some r)
    (hdiff : corners_identical_to (env.cornersOf v) (env.cornersOf r) = false)
    (hff : env.fullFetch v = some e) :
    (crawlGo env current v prev acc).1 = CrawlOutcome.finished acc true := by
  apply crawlGo_graceful
  unfold crawlStep crawlDL
  rw [if_neg hvc]
  subst hprev
  simp [hcf, hff, hdiff, hvc]

theorem crawl_partial_failure_finalizes_normally_witness :
    (0 : ℕ) ≠ 1
    ∧ envPartialFail.cornerFetch 0 = none
    ∧ corners_identical_to (envPartialFail.cornersOf 0) (envPartialFail.cornersOf 1) = false
    ∧ envPartialFail.fullFetch 0 = some ⟨1, 4⟩
    ∧ (crawlGo envPartialFail 1 0 (some 1) [1]).1 = CrawlOutcome.finished [1] true :=
  ⟨by decide, by decide, by decide, by decide,
   crawl_partial_failure_finalizes_normally envPartialFail 1 0 (some 1) [1] 1 ⟨1, 4⟩
     (by decide) (by decide) rfl (by decide) (by decide)⟩

/-- Grid of six single-tile columns with one failed tile, used to witness
the download retry claim: one error out of six is below the 20 percent
threshold, so the retry runs (and fails again, the tile being stubborn). -/
def tilesSixOneError : List (List RetryTile) :=
  [[⟨MapTileStatus.ERROR, false⟩], [⟨MapTileStatus.DOWNLOADED, true⟩],
   [⟨MapTileStatus.DOWNLOADED, true⟩], [⟨MapTileStatus.DOWNLOADED, true⟩],
   [⟨MapTileStatus.DOWNLOADED, true⟩], [⟨MapTileStatus.DOWNLOADED, true⟩]]

theorem grid_download_retry_and_error_spec_witness :
    (∀ col ∈ tilesSixOneError, col.length = 1)
    ∧ (tilesSixOneError.flatten.length = tilesSixOneError.length * 1
       ∧ (retriesHappen tilesSixOneError →
           MapTileGrid.download tilesSixOneError
             = if stubbornCount tilesSixOneError = 0 then none
               else some ⟨stubbornCount tilesSixOneError, tilesSixOneError.length * 1⟩)
       ∧ (¬ retriesHappen tilesSixOneError →
           MapTileGrid.download tilesSixOneError
             = if errorCount tilesSixOneError = 0 then none
               else some ⟨errorCount tilesSixOneError, tilesSixOneError.length * 1⟩)) :=
  ⟨by decide, grid_download_retry_and_error_spec tilesSixOneError 1 (by decide)⟩
